import Mathlib

/-!
Verification of the nested-document property flattener in
`x-pack/plugins/maps/server/mvt/util.ts` (`flattenHit`, `flattenSource`,
`flattenFields`).

The TypeScript code manipulates dynamically typed JavaScript values, so we
embed a small universe `JSValue` of the runtime values that can occur
(undefined, null, booleans, numbers, strings, arrays, plain objects), model
the JavaScript primitives the code relies on (`typeof`, `Array.isArray`,
truthiness, property access, property assignment, `for (const key in …)`
enumeration of own properties), and translate each function line by line.

Note on line 46 of `util.ts`: the recursion guard reads
`typeof value === 'object' && !Array.isArray(value)` where `value` is the
variable declared by `let value;` two lines above and not yet assigned, so the
guard inspects `undefined`, not `properties[key]`.  The embedding keeps this
behaviour exactly as written (the binding `value0` below plays the role of the
just-declared `value`).
-/

namespace MvtUtil

/-- A JavaScript runtime value, as far as `util.ts` can observe it.  Numbers
are modelled as integers (the code never does arithmetic on them), objects as
association lists in insertion order (JavaScript object keys are unique). -/
inductive JSValue : Type where
  | undefined : JSValue
  | null : JSValue
  | boolean : Bool → JSValue
  | number : Int → JSValue
  | string : String → JSValue
  | array : List JSValue → JSValue
  | object : List (String × JSValue) → JSValue

/-- The `typeof` operator.  `typeof null`, `typeof []` and `typeof {}` are all
`"object"`. -/
def jsTypeof : JSValue → String
  | .undefined => "undefined"
  | .null => "object"
  | .boolean _ => "boolean"
  | .number _ => "number"
  | .string _ => "string"
  | .array _ => "object"
  | .object _ => "object"

/-- `Array.isArray`. -/
def isArray : JSValue → Bool
  | .array _ => true
  | _ => false

/-- Strict equality with `null` (`v !== null` is `!(isNull v)`). -/
def isNull : JSValue → Bool
  | .null => true
  | _ => false

/-- JavaScript truthiness, as used by `if (hit)`, `if (hit.fields)` and the
ternary on `path`.  (`NaN` is not representable in the model.) -/
def truthy : JSValue → Bool
  | .undefined => false
  | .null => false
  | .boolean b => b
  | .number n => n != 0
  | .string s => s != ""
  | .array _ => true
  | .object _ => true

/-- The flat accumulator object: keys with values, in insertion order. -/
abbrev PropList := List (String × JSValue)

/-- Property read `v[k]` / `v.k` for the keys `util.ts` reads (`_source`,
`fields`, `_index`, `_id` on the hit; array reads go through `indexZero`).
A missing property, or a read on a non-object, yields `undefined`; reads on
`null`/`undefined` would throw in JavaScript and are modelled separately by
`getPropE` below. -/
def getProp : JSValue → String → JSValue
  | .object fs, k =>
      match fs.find? (fun p => p.1 == k) with
      | some p => p.2
      | none => .undefined
  | _, _ => .undefined

/-- Array read `value[0]`, used by `flattenFields` after an `Array.isArray`
check: the first element, or `undefined` for an empty array. -/
def indexZero : JSValue → JSValue
  | .array (x :: _) => x
  | _ => .undefined

/-- Property assignment `m[k] = v` on a plain object: overwrite in place when
the key exists (JavaScript keeps the original insertion position), append
otherwise.  Assigning `undefined` still creates the property. -/
def setKey : PropList → String → JSValue → PropList
  | [], k, v => [(k, v)]
  | p :: rest, k, v =>
      if p.1 == k then (p.1, v) :: rest else p :: setKey rest k v

/-- Observing the accumulator: the value stored under `k`, if the key exists. -/
def lookupKey (m : PropList) (k : String) : Option JSValue :=
  (m.find? (fun p => p.1 == k)).map (fun p => p.2)

/-- Observing the accumulator: whether the key exists (`k in m`). -/
def hasKey (m : PropList) (k : String) : Bool :=
  m.any (fun p => p.1 == k)

/-- `for (const key in v)` over the own enumerable properties of `v`, paired
with the value `v[key]` the loop body reads back (every enumerated key passes
the `hasOwnProperty` filter).  Objects enumerate their keys in insertion
order; arrays enumerate their indices `"0"`, `"1"`, …; boxed strings
enumerate their character positions; primitives, `null` and `undefined`
enumerate nothing. -/
def forInKeys : JSValue → PropList
  | .object fs => fs
  | .array xs => xs.enum.map (fun p => (toString p.1, p.2))
  | .string s => s.data.enum.map (fun p => (toString p.1, JSValue.string (String.mk [p.2])))
  | _ => []

/-- `const newKey = path ? path + '.' + key : key;` (line 41): an empty `path`
string is falsy. -/
def joinKey (path key : String) : String :=
  if path != "" then path ++ "." ++ key else key

/-- The recursion guard of line 46,
`properties[key] !== null && typeof value === 'object' && !Array.isArray(value)`,
as a function of the two values it mentions: `pk` is `properties[key]` and
`value` is the local variable `value`. -/
def recurseCheck (pk value : JSValue) : Bool :=
  !(isNull pk) && (jsTypeof value == "object") && !(isArray value)

/-- The `for (const key in properties)` loop body of `flattenSource`
(lines 39–57), one entry at a time.  `value0` is the freshly declared
`let value;`, i.e. `undefined`, which is what line 46 inspects; the three
branches assign `value` and line 56 stores it under `newKey`.  In the middle
branch the code stores the object returned by the recursive call — the
accumulator itself — under `newKey`. -/
def flattenEntries (accum : PropList) (path : String) (entries : PropList)
    (geometryField : String) : PropList :=
  match entries with
  | [] => accum
  | (key, v) :: rest =>
      let newKey := joinKey path key
      let value0 : JSValue := JSValue.undefined
      if geometryField == newKey then
        -- value = properties[key]; // do not deep-copy the geometry
        flattenEntries (setKey accum newKey v) path rest geometryField
      else if recurseCheck v value0 then
        -- value = flattenSource(accum, newKey, properties[key], geometryField);
        let accumRec := flattenEntries accum newKey (forInKeys v) geometryField
        flattenEntries (setKey accumRec newKey (JSValue.object accumRec)) path rest
          geometryField
      else
        -- value = properties[key];
        flattenEntries (setKey accum newKey v) path rest geometryField
termination_by entries.length
decreasing_by
  · simp
  · simp_all [recurseCheck, jsTypeof]
  · simp
  · simp

/-- `flattenSource` (lines 32–59).  The `properties: Record<string, unknown>
= {}` default fills in an empty object when the argument is `undefined`; the
`accum = accum || {}` guard is vacuous here because `PropList` is always an
object. -/
def flattenSource (accum : PropList) (path : String) (properties : JSValue)
    (geometryField : String) : PropList :=
  let props := match properties with
    | JSValue.undefined => JSValue.object []
    | p => p
  flattenEntries accum path (forInKeys props) geometryField

/-- The `for (const key in fields)` loop body of `flattenFields`
(lines 64–71): store `value[0]` when `Array.isArray(value)`, the value itself
otherwise. -/
def fieldStep (acc : PropList) (kv : String × JSValue) : PropList :=
  if isArray kv.2 then setKey acc kv.1 (indexZero kv.2)
  else setKey acc kv.1 kv.2

/-- `flattenFields` (lines 61–73): for every own enumerable entry of `fields`,
store the first element when the value is an array, the value itself
otherwise.  The mutation of `accum` is returned explicitly. -/
def flattenFields (accum : PropList) (fields : JSValue) : PropList :=
  (forInKeys fields).foldl fieldStep accum

/-- `flattenHit` (lines 17–30): start from a fresh empty map; when `hit` is
truthy, flatten `hit._source`, then (when `hit.fields` is truthy) the
computed-fields table, then attach the meta fields `_index` and `_id`. -/
def flattenHit (geometryField : String) (hit : JSValue) : PropList :=
  let flat : PropList := []
  if truthy hit then
    let flat := flattenSource flat "" (getProp hit "_source") geometryField
    let flat :=
      if truthy (getProp hit "fields") then flattenFields flat (getProp hit "fields")
      else flat
    let flat := setKey flat "_index" (getProp hit "_index")
    let flat := setKey flat "_id" (getProp hit "_id")
    flat
  else
    flat

/-!
### Error model

In JavaScript the code under scrutiny can throw in two ways.

First, reading a property of `null` or `undefined` is a `TypeError`; the
four reads on `hit` are guarded by `if (hit)`, so this path never fires.

Second, the loop bodies call `properties.hasOwnProperty(key)` (line 40) and
`fields.hasOwnProperty(key)` (line 64) as methods on the iterated receiver.
When the receiver is a plain object carrying an own data field literally
named `hasOwnProperty`, that field shadows `Object.prototype.hasOwnProperty`
and the call throws `TypeError: properties.hasOwnProperty is not a function`
on the loop's first iteration (before anything is stored).  No value of
`JSValue` is callable — the model, like a JSON-parsed document, has no
function values — so within the model every shadowing field throws.  The
shadowing field is itself own and enumerable, so a shadowed object always
has at least one iteration; conversely an unshadowed receiver's calls all
resolve to the prototype method and return `true` for every enumerated key.
Arrays and boxed strings cannot carry such a field in the model, and
primitives, `null` and `undefined` iterate zero times, so the call is never
reached on them.

Every other operation — string concatenation, `Array.isArray`, indexing an
array, assigning into the accumulator object — is total.  `flattenHitE`
re-runs `flattenHit` with both throw paths instrumented.
-/

/-- Plain property read as JavaScript performs it: reading from `null` or
`undefined` throws a `TypeError`; every other receiver yields `getProp`.
(The separate throw path of the `hasOwnProperty` method calls lives in
`flattenSourceE`/`flattenFieldsE` below.) -/
def getPropE (v : JSValue) (k : String) : Except String JSValue :=
  match v with
  | .undefined => .error "TypeError: cannot read properties of undefined"
  | .null => .error "TypeError: cannot read properties of null"
  | _ => .ok (getProp v k)

/-- Whether `v.hasOwnProperty(…)` would throw: a plain object with an own
data field named `hasOwnProperty` shadows the prototype method with a
non-callable value. -/
def hasOwnPropertyShadowed : JSValue → Bool
  | .object fs => fs.any (fun p => p.1 == "hasOwnProperty")
  | _ => false

/-- The `flattenSource` walk with its line-40 `properties.hasOwnProperty(key)`
call instrumented: a shadowed receiver throws on the first iteration (a
shadowed object necessarily has one), before any store; otherwise the loop
runs exactly as in `flattenSource`. -/
def flattenSourceE (accum : PropList) (path : String) (properties : JSValue)
    (geometryField : String) : Except String PropList :=
  let props := match properties with
    | JSValue.undefined => JSValue.object []
    | p => p
  if hasOwnPropertyShadowed props then
    .error "TypeError: properties.hasOwnProperty is not a function"
  else
    .ok (flattenEntries accum path (forInKeys props) geometryField)

/-- The `flattenFields` walk with its line-64 `fields.hasOwnProperty(key)`
call instrumented in the same way. -/
def flattenFieldsE (accum : PropList) (fields : JSValue) :
    Except String PropList :=
  if hasOwnPropertyShadowed fields then
    .error "TypeError: fields.hasOwnProperty is not a function"
  else
    .ok (flattenFields accum fields)

/-- `flattenHit` with every site where the JavaScript engine could throw
made fallible: the four property reads on `hit`, and the `hasOwnProperty`
method calls inside the two walks. -/
def flattenHitE (geometryField : String) (hit : JSValue) :
    Except String PropList :=
  let flat : PropList := []
  if truthy hit then do
    let src ← getPropE hit "_source"
    let flat ← flattenSourceE flat "" src geometryField
    let fieldsVal ← getPropE hit "fields"
    let flat ← if truthy fieldsVal then flattenFieldsE flat fieldsVal else pure flat
    let idxVal ← getPropE hit "_index"
    let flat := setKey flat "_index" idxVal
    let idVal ← getPropE hit "_id"
    pure (setKey flat "_id" idVal)
  else
    pure flat

/-!
### Heap model

The pure embedding above cannot even express mutation of the inputs, so the
"no side effects" contract is re-checked against a second, store-passing
translation of the same three functions.  Objects and arrays live in a store
indexed by allocation address; every JavaScript property write becomes an
explicit store update, so "the inputs are not mutated" is the statement that
every address allocated before the call holds the same object afterwards
(`flattenHit` allocates `flat` fresh with `const flat = {}` and only ever
writes through it).
-/

/-- A heap value: a primitive, or a reference to an object/array in the
store. -/
inductive HVal : Type where
  | undefined : HVal
  | null : HVal
  | boolean : Bool → HVal
  | number : Int → HVal
  | string : String → HVal
  | ref : Nat → HVal

/-- A heap object: a plain object (association list of fields) or an array. -/
inductive HObj : Type where
  | obj : List (String × HVal) → HObj
  | arr : List HVal → HObj

/-- The store: address `a` holds `objs.get? a`. -/
abbrev Store := List HObj

/-- Truthiness of a heap value (all objects and arrays are truthy). -/
def htruthy : HVal → Bool
  | .undefined => false
  | .null => false
  | .boolean b => b
  | .number n => n != 0
  | .string s => s != ""
  | .ref _ => true

/-- `typeof` on a heap value: references (objects and arrays) and `null` are
`"object"`. -/
def hTypeof : HVal → String
  | .undefined => "undefined"
  | .null => "object"
  | .boolean _ => "boolean"
  | .number _ => "number"
  | .string _ => "string"
  | .ref _ => "object"

/-- `Array.isArray` on a heap value: follow the reference into the store. -/
def hIsArray (st : Store) : HVal → Bool
  | .ref a =>
      match st.get? a with
      | some (.arr _) => true
      | _ => false
  | _ => false

/-- Strict equality with `null`. -/
def hIsNull : HVal → Bool
  | .null => true
  | _ => false

/-- Field lookup inside a plain object's field list (first match). -/
def hFindField (fs : List (String × HVal)) (k : String) : HVal :=
  match fs.find? (fun p => p.1 == k) with
  | some p => p.2
  | none => .undefined

/-- Property read `v[k]` through the store.  Missing properties and reads on
boxed primitives yield `undefined`; array reads go through the numeric
index.  (Reads on `null`/`undefined` throw and are covered by the error
model on the pure embedding.) -/
def hGetProp (st : Store) (v : HVal) (k : String) : HVal :=
  match v with
  | .ref a =>
      match st.get? a with
      | some (.obj fs) => hFindField fs k
      | some (.arr xs) =>
          match k.toNat? with
          | some i => xs.getD i .undefined
          | none => .undefined
      | none => .undefined
  | _ => .undefined

/-- In-place update of an object's field list (same semantics as `setKey`). -/
def hSetField : List (String × HVal) → String → HVal → List (String × HVal)
  | [], k, v => [(k, v)]
  | p :: rest, k, v =>
      if p.1 == k then (p.1, v) :: rest else p :: hSetField rest k v

/-- Property write `st[a][k] = v`: mutates only the object at address `a`
(the code only ever writes through the accumulator object, so the array case
cannot arise; a write through a dangling or array reference is a no-op). -/
def hSetKey (st : Store) (a : Nat) (k : String) (v : HVal) : Store :=
  match st.get? a with
  | some (.obj fs) => st.set a (.obj (hSetField fs k v))
  | _ => st

/-- `for (const key in v)` over the store: objects enumerate their fields,
arrays their indices, boxed strings their character positions. -/
def hForIn (st : Store) : HVal → List (String × HVal)
  | .ref a =>
      match st.get? a with
      | some (.obj fs) => fs
      | some (.arr xs) => xs.enum.map (fun p => (toString p.1, p.2))
      | none => []
  | .string s => s.data.enum.map (fun p => (toString p.1, HVal.string (String.mk [p.2])))
  | _ => []

/-- The line-46 recursion guard over heap values (`value` is again the
just-declared, still-`undefined` local variable). -/
def hRecurseCheck (st : Store) (pk value : HVal) : Bool :=
  !(hIsNull pk) && (hTypeof value == "object") && !(hIsArray st value)

/-- The `flattenSource` loop, store-passing: identical control flow to
`flattenEntries`, with every `accum[newKey] = value` a store write through
the accumulator's address `accumA`.  In the (unreachable) recursion branch
the value stored is the reference to the accumulator that the recursive call
returns. -/
def hFlattenEntries (st : Store) (accumA : Nat) (path : String)
    (entries : List (String × HVal)) (geometryField : String) : Store :=
  match entries with
  | [] => st
  | (key, v) :: rest =>
      let newKey := joinKey path key
      let value0 : HVal := HVal.undefined
      if geometryField == newKey then
        hFlattenEntries (hSetKey st accumA newKey v) accumA path rest geometryField
      else if hRecurseCheck st v value0 then
        let st1 := hFlattenEntries st accumA newKey (hForIn st v) geometryField
        hFlattenEntries (hSetKey st1 accumA newKey (HVal.ref accumA)) accumA path rest
          geometryField
      else
        hFlattenEntries (hSetKey st accumA newKey v) accumA path rest geometryField
termination_by entries.length
decreasing_by
  · simp
  · simp_all [hRecurseCheck, hTypeof]
  · simp
  · simp

/-- Store-passing `flattenSource`.  (The `= {}` default for an `undefined`
`properties` argument only ever produces an empty iteration, so it is not
modelled as a fresh allocation.) -/
def hFlattenSource (st : Store) (accumA : Nat) (path : String)
    (properties : HVal) (geometryField : String) : Store :=
  hFlattenEntries st accumA path (hForIn st properties) geometryField

/-- Store-passing `flattenFields`. -/
def hFlattenFields (st : Store) (accumA : Nat) (fields : HVal) : Store :=
  (hForIn st fields).foldl
    (fun s kv =>
      if hIsArray s kv.2 then
        hSetKey s accumA kv.1
          (match kv.2 with
           | .ref a =>
               match s.get? a with
               | some (.arr (x :: _)) => x
               | _ => .undefined
           | _ => .undefined)
      else hSetKey s accumA kv.1 kv.2)
    st

/-- Store-passing `flattenHit`: `const flat = {};` allocates a fresh object
at the end of the store, and every subsequent write goes through its address.
Returns the updated store and the reference to `flat`. -/
def hFlattenHit (st : Store) (geometryField : String) (hit : HVal) :
    Store × HVal :=
  let flatA := st.length
  let st1 := st ++ [HObj.obj []]
  if htruthy hit then
    let st2 := hFlattenSource st1 flatA "" (hGetProp st1 hit "_source") geometryField
    let st3 :=
      if htruthy (hGetProp st2 hit "fields") then
        hFlattenFields st2 flatA (hGetProp st2 hit "fields")
      else st2
    let st4 := hSetKey st3 flatA "_index" (hGetProp st3 hit "_index")
    let st5 := hSetKey st4 flatA "_id" (hGetProp st4 hit "_id")
    (st5, HVal.ref flatA)
  else
    (st1, HVal.ref flatA)

/-!
### Basic lemmas about the model
-/

/-- The line-46 guard always fails: it inspects the just-declared `value`
variable, which is still `undefined`, and `typeof undefined` is
`"undefined"`, not `"object"`. -/
theorem recurseCheck_undefined (pk : JSValue) :
    recurseCheck pk JSValue.undefined = false := by
  simp [recurseCheck, jsTypeof]

/-- The heap-model guard fails for the same reason, whatever the store. -/
theorem hRecurseCheck_undefined (st : Store) (pk : HVal) :
    hRecurseCheck st pk HVal.undefined = false := by
  simp [hRecurseCheck, hTypeof]

theorem flattenEntries_nil (accum : PropList) (path g : String) :
    flattenEntries accum path [] g = accum := by
  simp [flattenEntries]

/-- One loop iteration.  Because the recursion guard always fails, both
reachable branches store `properties[key]` itself under the new key. -/
theorem flattenEntries_cons (accum : PropList) (path key : String) (v : JSValue)
    (rest : PropList) (g : String) :
    flattenEntries accum path ((key, v) :: rest) g =
      flattenEntries (setKey accum (joinKey path key) v) path rest g := by
  rw [flattenEntries]
  simp [recurseCheck_undefined]

/-- Closed form of the source walk as the code actually behaves: a single
non-recursive pass that stores every entry's value as-is under its joined
key.  (The intended pre-order flattening never happens.) -/
theorem flattenEntries_eq_foldl (accum : PropList) (path : String)
    (entries : PropList) (g : String) :
    flattenEntries accum path entries g =
      entries.foldl (fun a kv => setKey a (joinKey path kv.1) kv.2) accum := by
  induction entries generalizing accum with
  | nil => exact flattenEntries_nil accum path g
  | cons kv rest ih =>
      obtain ⟨key, v⟩ := kv
      rw [flattenEntries_cons, ih]
      rfl

theorem setKey_nil (k : String) (v : JSValue) : setKey [] k v = [(k, v)] := rfl

theorem setKey_cons_eq (p : String × JSValue) (rest : PropList) (k : String)
    (v : JSValue) (h : p.1 = k) : setKey (p :: rest) k v = (p.1, v) :: rest := by
  simp [setKey, h]

theorem setKey_cons_ne (p : String × JSValue) (rest : PropList) (k : String)
    (v : JSValue) (h : p.1 ≠ k) : setKey (p :: rest) k v = p :: setKey rest k v := by
  simp [setKey, h]

theorem lookupKey_nil (k : String) : lookupKey [] k = none := rfl

theorem lookupKey_cons_eq (p : String × JSValue) (rest : PropList) (k : String)
    (h : p.1 = k) : lookupKey (p :: rest) k = some p.2 := by
  simp [lookupKey, List.find?_cons, h]

theorem lookupKey_cons_ne (p : String × JSValue) (rest : PropList) (k : String)
    (h : p.1 ≠ k) : lookupKey (p :: rest) k = lookupKey rest k := by
  simp [lookupKey, List.find?_cons, h]

theorem hasKey_cons (p : String × JSValue) (rest : PropList) (k : String) :
    hasKey (p :: rest) k = ((p.1 == k) || hasKey rest k) := by
  simp [hasKey]

theorem lookupKey_setKey_self (m : PropList) (k : String) (v : JSValue) :
    lookupKey (setKey m k v) k = some v := by
  induction m with
  | nil => simp [setKey, lookupKey]
  | cons p rest ih =>
      by_cases h : p.1 = k
      · rw [setKey_cons_eq p rest k v h, lookupKey_cons_eq (p.1, v) rest k h]
      · rw [setKey_cons_ne p rest k v h, lookupKey_cons_ne p (setKey rest k v) k h]
        exact ih

theorem lookupKey_setKey_ne (m : PropList) (k' k : String) (v : JSValue)
    (h : k' ≠ k) : lookupKey (setKey m k' v) k = lookupKey m k := by
  induction m with
  | nil =>
      rw [setKey_nil, lookupKey_cons_ne (k', v) [] k h, lookupKey_nil]
  | cons p rest ih =>
      by_cases hp : p.1 = k'
      · rw [setKey_cons_eq p rest k' v hp]
        by_cases hk : p.1 = k
        · exact absurd (hp ▸ hk) h
        · rw [lookupKey_cons_ne (p.1, v) rest k hk, lookupKey_cons_ne p rest k hk]
      · rw [setKey_cons_ne p rest k' v hp]
        by_cases hk : p.1 = k
        · rw [lookupKey_cons_eq p (setKey rest k' v) k hk, lookupKey_cons_eq p rest k hk]
        · rw [lookupKey_cons_ne p (setKey rest k' v) k hk, lookupKey_cons_ne p rest k hk]
          exact ih

theorem hasKey_setKey_self (m : PropList) (k : String) (v : JSValue) :
    hasKey (setKey m k v) k = true := by
  induction m with
  | nil => rw [setKey_nil, hasKey_cons]; simp
  | cons p rest ih =>
      by_cases h : p.1 = k
      · rw [setKey_cons_eq p rest k v h, hasKey_cons]
        simp [h]
      · rw [setKey_cons_ne p rest k v h, hasKey_cons]
        simp [ih]

/-- Every key of `setKey m k' v` is a key of `m` or is `k'`. -/
theorem hasKey_setKey (m : PropList) (k' k : String) (v : JSValue)
    (h : hasKey (setKey m k' v) k = true) : hasKey m k = true ∨ k = k' := by
  induction m with
  | nil =>
      rw [setKey_nil, hasKey_cons] at h
      simp only [hasKey, List.any_nil, Bool.or_false, beq_iff_eq] at h
      exact Or.inr h.symm
  | cons p rest ih =>
      by_cases hp : p.1 = k'
      · rw [setKey_cons_eq p rest k' v hp, hasKey_cons] at h
        rw [hasKey_cons]
        exact Or.inl h
      · rw [setKey_cons_ne p rest k' v hp, hasKey_cons] at h
        rw [hasKey_cons]
        rcases Bool.or_eq_true_iff.mp h with h1 | h2
        · exact Or.inl (Bool.or_eq_true_iff.mpr (Or.inl h1))
        · rcases ih h2 with h3 | h4
          · exact Or.inl (Bool.or_eq_true_iff.mpr (Or.inr h3))
          · exact Or.inr h4

theorem lookupKey_eq_none_of_hasKey_eq_false (m : PropList) (k : String)
    (h : hasKey m k = false) : lookupKey m k = none := by
  induction m with
  | nil => rfl
  | cons p rest ih =>
      rw [hasKey_cons, Bool.or_eq_false_iff] at h
      rw [lookupKey_cons_ne p rest k (by simpa using h.1)]
      exact ih h.2

/-- Keys of the source walk: since the recursion guard never fires, every key
the walk adds to the accumulator is the joined key of a top-level entry. -/
theorem hasKey_flattenEntries (entries : PropList) (accum : PropList)
    (path g k : String)
    (h : hasKey (flattenEntries accum path entries g) k = true) :
    hasKey accum k = true ∨ ∃ kv ∈ entries, k = joinKey path kv.1 := by
  induction entries generalizing accum with
  | nil =>
      rw [flattenEntries_nil] at h
      exact Or.inl h
  | cons kv rest ih =>
      obtain ⟨key, v⟩ := kv
      rw [flattenEntries_cons] at h
      rcases ih (setKey accum (joinKey path key) v) h with h1 | h2
      · rcases hasKey_setKey accum (joinKey path key) k v h1 with h3 | h4
        · exact Or.inl h3
        · exact Or.inr ⟨(key, v), List.mem_cons_self _ _, h4⟩
      · obtain ⟨kv', hmem, hk⟩ := h2
        exact Or.inr ⟨kv', List.mem_cons_of_mem _ hmem, hk⟩

/-- A key without a dot in it. -/
def dotFree (k : String) : Bool := decide (('.' : Char) ∉ k.data)

theorem ne_of_dotFree (k g s : String) (h : dotFree k = true) :
    k ≠ g ++ "." ++ s := by
  intro heq
  have hmem : ('.' : Char) ∈ (g ++ "." ++ s).data := by
    show ('.' : Char) ∈ g.data ++ ['.'] ++ s.data
    simp
  rw [← heq] at hmem
  exact (of_decide_eq_true h) hmem

/-!
### Lemmas about the heap model
-/

theorem hSetKey_frame (st : Store) (a : Nat) (k : String) (v : HVal) (b : Nat)
    (h : b ≠ a) : (hSetKey st a k v).get? b = st.get? b := by
  unfold hSetKey
  split
  · rw [List.get?_eq_getElem?, List.get?_eq_getElem?, List.getElem?_set_ne h.symm]
  · rfl

theorem hFlattenEntries_nil (st : Store) (accumA : Nat) (path g : String) :
    hFlattenEntries st accumA path [] g = st := by
  simp [hFlattenEntries]

theorem hFlattenEntries_cons (st : Store) (accumA : Nat) (path key : String)
    (v : HVal) (rest : List (String × HVal)) (g : String) :
    hFlattenEntries st accumA path ((key, v) :: rest) g =
      hFlattenEntries (hSetKey st accumA (joinKey path key) v) accumA path rest g := by
  rw [hFlattenEntries]
  simp [hRecurseCheck_undefined]

/-- The source walk writes only through the accumulator's address. -/
theorem hFlattenEntries_frame (entries : List (String × HVal)) (st : Store)
    (accumA : Nat) (path g : String) (b : Nat) (h : b ≠ accumA) :
    (hFlattenEntries st accumA path entries g).get? b = st.get? b := by
  induction entries generalizing st with
  | nil => rw [hFlattenEntries_nil]
  | cons kv rest ih =>
      obtain ⟨key, v⟩ := kv
      rw [hFlattenEntries_cons, ih, hSetKey_frame st accumA _ v b h]

theorem hFlattenSource_frame (st : Store) (accumA : Nat) (path : String)
    (properties : HVal) (g : String) (b : Nat) (h : b ≠ accumA) :
    (hFlattenSource st accumA path properties g).get? b = st.get? b :=
  hFlattenEntries_frame (hForIn st properties) st accumA path g b h

/-- The computed-fields walk writes only through the accumulator's address. -/
theorem hFlattenFields_frame (st : Store) (accumA : Nat) (fields : HVal)
    (b : Nat) (h : b ≠ accumA) :
    (hFlattenFields st accumA fields).get? b = st.get? b := by
  unfold hFlattenFields
  generalize hForIn st fields = l
  induction l generalizing st with
  | nil => rfl
  | cons kv rest ih =>
      rw [List.foldl_cons, ih]
      split
      · exact hSetKey_frame st accumA kv.1 _ b h
      · exact hSetKey_frame st accumA kv.1 kv.2 b h

theorem hasKey_of_lookupKey (m : PropList) (k : String) (v : JSValue)
    (h : lookupKey m k = some v) : hasKey m k = true := by
  induction m with
  | nil => simp [lookupKey] at h
  | cons p rest ih =>
      by_cases hp : p.1 = k
      · rw [hasKey_cons]
        simp [hp]
      · rw [lookupKey_cons_ne p rest k hp] at h
        rw [hasKey_cons]
        simp [ih h]

theorem lookupKey_fieldStep_self (acc : PropList) (k : String) (v : JSValue) :
    lookupKey (fieldStep acc (k, v)) k =
      some (if isArray v then indexZero v else v) := by
  unfold fieldStep
  split
  · rw [lookupKey_setKey_self]
  · rw [lookupKey_setKey_self]

theorem lookupKey_fieldStep_ne (acc : PropList) (kv : String × JSValue)
    (k : String) (h : kv.1 ≠ k) :
    lookupKey (fieldStep acc kv) k = lookupKey acc k := by
  unfold fieldStep
  split
  · exact lookupKey_setKey_ne acc kv.1 k _ h
  · exact lookupKey_setKey_ne acc kv.1 k kv.2 h

theorem lookupKey_foldl_fieldStep_ne (l : PropList) :
    ∀ (acc : PropList) (k : String), (∀ kv ∈ l, kv.1 ≠ k) →
      lookupKey (l.foldl fieldStep acc) k = lookupKey acc k := by
  induction l with
  | nil => intro acc k _; rfl
  | cons kv rest ih =>
      intro acc k h
      rw [List.foldl_cons, ih (fieldStep acc kv) k
        (fun kv' hm => h kv' (List.mem_cons_of_mem kv hm))]
      exact lookupKey_fieldStep_ne acc kv k (h kv (List.mem_cons_self kv rest))

theorem lookupKey_foldl_fieldStep (fs : PropList) :
    ∀ (accum : PropList) (k : String) (v : JSValue),
      (fs.map Prod.fst).Nodup → (k, v) ∈ fs →
      lookupKey (fs.foldl fieldStep accum) k =
        some (if isArray v then indexZero v else v) := by
  induction fs with
  | nil => intro accum k v _ hmem; cases hmem
  | cons p rest ih =>
      intro accum k v hnd hmem
      rw [List.map_cons, List.nodup_cons] at hnd
      rcases List.mem_cons.mp hmem with heq | hmem'
      · rw [List.foldl_cons]
        have hpk : p.1 = k := by rw [← heq]
        have hk : ∀ kv ∈ rest, kv.1 ≠ k := by
          intro kv hm hkk
          apply hnd.1
          rw [hpk, ← hkk]
          exact List.mem_map_of_mem Prod.fst hm
        rw [lookupKey_foldl_fieldStep_ne rest (fieldStep accum p) k hk, ← heq]
        exact lookupKey_fieldStep_self accum k v
      · rw [List.foldl_cons]
        exact ih (fieldStep accum p) k v hnd.2 hmem'

/-!
### The claims
-/

/-- C4: for every present (truthy) document, the output map holds the
document's `_index` and `_id` under the two fixed metadata keys; because they
are written last, the lookup yields exactly the document's identifiers,
overriding anything the source walk or the computed-fields step stored under
those keys. -/
theorem flattenHit_metadata (g : String) (hit : JSValue)
    (h : truthy hit = true) :
    lookupKey (flattenHit g hit) "_index" = some (getProp hit "_index") ∧
    lookupKey (flattenHit g hit) "_id" = some (getProp hit "_id") := by
  simp only [flattenHit, h, if_true]
  constructor
  · rw [lookupKey_setKey_ne _ "_id" "_index" _ (by decide), lookupKey_setKey_self]
  · rw [lookupKey_setKey_self]

/-- Witness for C4: a truthy document whose source tree even contains an
`_index` leaf of its own; the metadata still wins. -/
theorem flattenHit_metadata_witness :
    truthy (JSValue.object [("_index", JSValue.string "logs-1"),
      ("_id", JSValue.string "abc"),
      ("_source", JSValue.object [("_index", JSValue.number 7)])]) = true ∧
    lookupKey (flattenHit "geom" (JSValue.object [("_index", JSValue.string "logs-1"),
      ("_id", JSValue.string "abc"),
      ("_source", JSValue.object [("_index", JSValue.number 7)])])) "_index" =
      some (getProp (JSValue.object [("_index", JSValue.string "logs-1"),
        ("_id", JSValue.string "abc"),
        ("_source", JSValue.object [("_index", JSValue.number 7)])]) "_index") ∧
    lookupKey (flattenHit "geom" (JSValue.object [("_index", JSValue.string "logs-1"),
      ("_id", JSValue.string "abc"),
      ("_source", JSValue.object [("_index", JSValue.number 7)])])) "_id" =
      some (getProp (JSValue.object [("_index", JSValue.string "logs-1"),
        ("_id", JSValue.string "abc"),
        ("_source", JSValue.object [("_index", JSValue.number 7)])]) "_id") :=
  ⟨rfl,
   flattenHit_metadata "geom" (JSValue.object [("_index", JSValue.string "logs-1"),
     ("_id", JSValue.string "abc"),
     ("_source", JSValue.object [("_index", JSValue.number 7)])]) rfl⟩

/-- C5: in the computed-fields step, every entry of the table with an
array value gets only its first element stored under its key (`undefined`
for an empty array, which is what `value[0]` evaluates to), and every
non-array value is stored unchanged. -/
theorem flattenFields_entry (accum : PropList) (fs : PropList) (k : String)
    (v : JSValue) (hnd : (fs.map Prod.fst).Nodup) (hmem : (k, v) ∈ fs) :
    lookupKey (flattenFields accum (JSValue.object fs)) k =
      some (if isArray v then indexZero v else v) :=
  lookupKey_foldl_fieldStep fs accum k v hnd hmem

/-- Witness for C5: a two-entry table whose first entry holds a
multi-element array; only `10`, its first element, is stored. -/
theorem flattenFields_entry_witness :
    (([("f1", JSValue.array [JSValue.number 10, JSValue.number 20]),
       ("f2", JSValue.string "x")] : PropList).map Prod.fst).Nodup ∧
    (("f1", JSValue.array [JSValue.number 10, JSValue.number 20]) ∈
      ([("f1", JSValue.array [JSValue.number 10, JSValue.number 20]),
        ("f2", JSValue.string "x")] : PropList)) ∧
    lookupKey (flattenFields []
        (JSValue.object [("f1", JSValue.array [JSValue.number 10, JSValue.number 20]),
          ("f2", JSValue.string "x")])) "f1" =
      some (if isArray (JSValue.array [JSValue.number 10, JSValue.number 20]) then
        indexZero (JSValue.array [JSValue.number 10, JSValue.number 20])
      else JSValue.array [JSValue.number 10, JSValue.number 20]) :=
  ⟨by decide, List.mem_cons_self _ _,
   flattenFields_entry [] _ "f1" (JSValue.array [JSValue.number 10, JSValue.number 20])
     (by decide) (List.mem_cons_self _ _)⟩

theorem getPropE_ok_of_truthy (v : JSValue) (k : String)
    (h : truthy v = true) : getPropE v k = Except.ok (getProp v k) := by
  cases v <;> simp_all [truthy, getPropE]

theorem bindOk {α β : Type} (a : α) (f : α → Except String β) :
    (Except.ok a >>= f) = f a := rfl

theorem flattenSourceE_ok_of_not_shadowed (accum : PropList) (path : String)
    (properties : JSValue) (g : String)
    (h : hasOwnPropertyShadowed properties = false) :
    flattenSourceE accum path properties g =
      Except.ok (flattenSource accum path properties g) := by
  cases properties <;> first | rfl | simp [flattenSourceE, flattenSource, h]

theorem flattenFieldsE_ok_of_not_shadowed (accum : PropList) (fields : JSValue)
    (h : hasOwnPropertyShadowed fields = false) :
    flattenFieldsE accum fields = Except.ok (flattenFields accum fields) := by
  simp [flattenFieldsE, h]

/-- Counterexample to C6 as stated: the claim says the flattener never
raises for any input of the documented shape, but on the document
`{_source: {hasOwnProperty: 1}}` — a perfectly tree-shaped source — the
line-40 method call `properties.hasOwnProperty(key)` finds the own data
field `hasOwnProperty: 1` shadowing the prototype method and throws a
`TypeError` on the loop's first iteration. -/
theorem flattenHitE_shadowed_hasOwnProperty_raises :
    flattenHitE "geom"
        (JSValue.object
          [("_source", JSValue.object [("hasOwnProperty", JSValue.number 1)])]) =
      Except.error "TypeError: properties.hasOwnProperty is not a function" := rfl

/-- C6 (amended): the flattener never raises on any input — absent document,
absent or empty source tree, absent computed-fields table, non-object values
where objects are expected — except when the source tree or the
computed-fields table is an object with an own field literally named
`hasOwnProperty`; in the absence of such a shadowing field it always returns
`ok` of the pure result. -/
theorem flattenHitE_ok_of_no_shadowing (g : String) (hit : JSValue)
    (hsrc : hasOwnPropertyShadowed (getProp hit "_source") = false)
    (hflds : hasOwnPropertyShadowed (getProp hit "fields") = false) :
    flattenHitE g hit = Except.ok (flattenHit g hit) := by
  by_cases h : truthy hit = true
  · simp only [flattenHitE, flattenHit, h, if_true,
      getPropE_ok_of_truthy hit _ h, bindOk]
    rw [flattenSourceE_ok_of_not_shadowed [] "" (getProp hit "_source") g hsrc]
    simp only [bindOk]
    rw [flattenFieldsE_ok_of_not_shadowed _ _ hflds]
    split <;> rfl
  · rw [Bool.not_eq_true] at h
    simp only [flattenHitE, flattenHit, h]
    rfl

/-- Witness for C6 (amended): a document with a source tree and a
computed-fields table, neither shadowing `hasOwnProperty`. -/
theorem flattenHitE_ok_of_no_shadowing_witness :
    hasOwnPropertyShadowed (getProp
      (JSValue.object [("_source", JSValue.object [("a", JSValue.number 1)]),
        ("fields", JSValue.object [("f", JSValue.array [JSValue.number 5])])])
      "_source") = false ∧
    hasOwnPropertyShadowed (getProp
      (JSValue.object [("_source", JSValue.object [("a", JSValue.number 1)]),
        ("fields", JSValue.object [("f", JSValue.array [JSValue.number 5])])])
      "fields") = false ∧
    flattenHitE "geom"
        (JSValue.object [("_source", JSValue.object [("a", JSValue.number 1)]),
          ("fields", JSValue.object [("f", JSValue.array [JSValue.number 5])])]) =
      Except.ok (flattenHit "geom"
        (JSValue.object [("_source", JSValue.object [("a", JSValue.number 1)]),
          ("fields", JSValue.object [("f", JSValue.array [JSValue.number 5])])])) :=
  ⟨rfl, rfl,
   flattenHitE_ok_of_no_shadowing "geom"
     (JSValue.object [("_source", JSValue.object [("a", JSValue.number 1)]),
       ("fields", JSValue.object [("f", JSValue.array [JSValue.number 5])])])
     rfl rfl⟩

/-- C7: an absent or otherwise falsy document yields the empty map — no
source keys, no computed-field keys, no metadata keys — and no error. -/
theorem flattenHit_falsy (g : String) (hit : JSValue)
    (h : truthy hit = false) : flattenHit g hit = [] := by
  simp only [flattenHit, h]
  rfl

/-- Witness for C7: the absent (`undefined`) document. -/
theorem flattenHit_falsy_witness :
    truthy JSValue.undefined = false ∧ flattenHit "geom" JSValue.undefined = [] :=
  ⟨rfl, flattenHit_falsy "geom" JSValue.undefined rfl⟩

/-- C10: for a truthy document that carries no `_index`/`_id` fields,
the two metadata keys are still written: they are present in the output,
bound to `undefined` (property assignment of `undefined` creates the key).
-/
theorem flattenHit_metadata_missing (g : String) (hit : JSValue)
    (h : truthy hit = true)
    (hidx : getProp hit "_index" = JSValue.undefined)
    (hid : getProp hit "_id" = JSValue.undefined) :
    hasKey (flattenHit g hit) "_index" = true ∧
    lookupKey (flattenHit g hit) "_index" = some JSValue.undefined ∧
    hasKey (flattenHit g hit) "_id" = true ∧
    lookupKey (flattenHit g hit) "_id" = some JSValue.undefined := by
  have hlidx : lookupKey (flattenHit g hit) "_index" = some JSValue.undefined := by
    simp only [flattenHit, h, if_true, hidx, hid]
    rw [lookupKey_setKey_ne _ "_id" "_index" _ (by decide), lookupKey_setKey_self]
  have hlid : lookupKey (flattenHit g hit) "_id" = some JSValue.undefined := by
    simp only [flattenHit, h, if_true, hidx, hid]
    rw [lookupKey_setKey_self]
  exact ⟨hasKey_of_lookupKey _ _ _ hlidx, hlidx,
    hasKey_of_lookupKey _ _ _ hlid, hlid⟩

/-- Witness for C10: a truthy document with a source tree but no
identifier fields. -/
theorem flattenHit_metadata_missing_witness :
    truthy (JSValue.object [("_source", JSValue.object [("a", JSValue.number 1)])]) = true ∧
    getProp (JSValue.object [("_source", JSValue.object [("a", JSValue.number 1)])])
      "_index" = JSValue.undefined ∧
    getProp (JSValue.object [("_source", JSValue.object [("a", JSValue.number 1)])])
      "_id" = JSValue.undefined ∧
    (hasKey (flattenHit "geom"
        (JSValue.object [("_source", JSValue.object [("a", JSValue.number 1)])]))
      "_index" = true ∧
     lookupKey (flattenHit "geom"
        (JSValue.object [("_source", JSValue.object [("a", JSValue.number 1)])]))
      "_index" = some JSValue.undefined ∧
     hasKey (flattenHit "geom"
        (JSValue.object [("_source", JSValue.object [("a", JSValue.number 1)])]))
      "_id" = true ∧
     lookupKey (flattenHit "geom"
        (JSValue.object [("_source", JSValue.object [("a", JSValue.number 1)])]))
      "_id" = some JSValue.undefined) :=
  ⟨rfl, rfl, rfl,
   flattenHit_metadata_missing "geom"
     (JSValue.object [("_source", JSValue.object [("a", JSValue.number 1)])])
     rfl rfl rfl⟩

/-- C1 (divergence of the code from the claimed pre-order traversal):
on the document `{a: {b: 1}}` with geometry designator `"geom"` — so no path
equals the designator — the walk stores the nested object `{b: 1}` whole
under `"a"` and produces no `"a.b"` key at all, because the line-46 guard
tests the stale `value` variable (still `undefined`) instead of
`properties[key]` and therefore never recurses. -/
theorem flattenSource_stale_guard_example :
    flattenSource []
        "" (JSValue.object [("a", JSValue.object [("b", JSValue.number 1)])]) "geom" =
      [("a", JSValue.object [("b", JSValue.number 1)])] ∧
    lookupKey (flattenSource []
        "" (JSValue.object [("a", JSValue.object [("b", JSValue.number 1)])]) "geom")
      "a.b" = none := by
  constructor <;>
    simp [flattenSource, forInKeys, flattenEntries_cons, flattenEntries_nil,
      joinKey, setKey, lookupKey]

/-- C2 (divergence of the code from the spec's worked example): on the
spec's exact input with geometry path `"geom"`, the code returns a map whose
`"a"` entry is the whole nested object and which has no `"a.b"`/`"a.c"`
keys, instead of the claimed `{ "a.b": 1, "a.c": [1,2,3], … }`. -/
theorem flattenHit_spec_example_actual :
    flattenHit "geom"
        (JSValue.object [("_index", JSValue.string "logs-1"),
          ("_id", JSValue.string "abc"),
          ("_source", JSValue.object
            [("a", JSValue.object [("b", JSValue.number 1),
               ("c", JSValue.array [JSValue.number 1, JSValue.number 2, JSValue.number 3])]),
             ("geom", JSValue.object [("type", JSValue.string "Point"),
               ("coordinates", JSValue.array [JSValue.number 1, JSValue.number 2])])])]) =
      [("a", JSValue.object [("b", JSValue.number 1),
         ("c", JSValue.array [JSValue.number 1, JSValue.number 2, JSValue.number 3])]),
       ("geom", JSValue.object [("type", JSValue.string "Point"),
         ("coordinates", JSValue.array [JSValue.number 1, JSValue.number 2])]),
       ("_index", JSValue.string "logs-1"),
       ("_id", JSValue.string "abc")] ∧
    lookupKey (flattenHit "geom"
        (JSValue.object [("_index", JSValue.string "logs-1"),
          ("_id", JSValue.string "abc"),
          ("_source", JSValue.object
            [("a", JSValue.object [("b", JSValue.number 1),
               ("c", JSValue.array [JSValue.number 1, JSValue.number 2, JSValue.number 3])]),
             ("geom", JSValue.object [("type", JSValue.string "Point"),
               ("coordinates", JSValue.array [JSValue.number 1, JSValue.number 2])])])]))
      "a.b" = none ∧
    lookupKey (flattenHit "geom"
        (JSValue.object [("_index", JSValue.string "logs-1"),
          ("_id", JSValue.string "abc"),
          ("_source", JSValue.object
            [("a", JSValue.object [("b", JSValue.number 1),
               ("c", JSValue.array [JSValue.number 1, JSValue.number 2, JSValue.number 3])]),
             ("geom", JSValue.object [("type", JSValue.string "Point"),
               ("coordinates", JSValue.array [JSValue.number 1, JSValue.number 2])])])]))
      "a.c" = none := by
  refine ⟨?_, ?_, ?_⟩ <;>
    simp [flattenHit, flattenSource, forInKeys, getProp, truthy,
      flattenEntries_cons, flattenEntries_nil, joinKey, setKey, lookupKey]

/-- C3 (divergence of the code from exact-path geometry passthrough for
nested designators): with geometry designator `"a.geom"` and document
`{_source: {a: {geom: {type: "Point"}}}}`, the output has no `"a.geom"`
entry at all — the walk never reaches the nested key because the stale
line-46 guard prevents recursing into `"a"`; the whole of `"a"` is stored
instead. -/
theorem flattenHit_nested_geometry_missing :
    lookupKey (flattenHit "a.geom"
        (JSValue.object [("_source", JSValue.object
          [("a", JSValue.object
            [("geom", JSValue.object [("type", JSValue.string "Point")])])])]))
      "a.geom" = none ∧
    lookupKey (flattenHit "a.geom"
        (JSValue.object [("_source", JSValue.object
          [("a", JSValue.object
            [("geom", JSValue.object [("type", JSValue.string "Point")])])])]))
      "a" =
      some (JSValue.object [("geom", JSValue.object [("type", JSValue.string "Point")])]) := by
  constructor <;>
    simp [flattenHit, flattenSource, forInKeys, getProp, truthy,
      flattenEntries_cons, flattenEntries_nil, joinKey, setKey, lookupKey]

/-- C8: the geometry exclusion compares full dotted paths by exact string
equality only, and no proper descendant of the geometry designator — more
generally, no sibling path beneath any nested value — ever appears as a
separately flattened key: for any source tree whose (dot-free) top-level
keys are the only keys the walk can produce, every key of the form
`g ++ "." ++ s` is absent from the source-walk output. -/
theorem flattenSource_geometry_descendants_absent (g s : String)
    (fs : PropList) (hkeys : ∀ kv ∈ fs, dotFree kv.1 = true) :
    lookupKey (flattenSource [] "" (JSValue.object fs) g) (g ++ "." ++ s) =
      none := by
  apply lookupKey_eq_none_of_hasKey_eq_false
  rw [Bool.eq_false_iff]
  intro htrue
  have hsub := hasKey_flattenEntries fs [] "" g (g ++ "." ++ s) htrue
  rcases hsub with h1 | ⟨kv, hmem, hk⟩
  · simp [hasKey] at h1
  · exact ne_of_dotFree kv.1 g s (hkeys kv hmem) (by simpa [joinKey] using hk.symm)

/-- Witness for C8: a source tree whose geometry value is nested; the
sibling path `"geom.sub"` is not a key of the output. -/
theorem flattenSource_geometry_descendants_absent_witness :
    (∀ kv ∈ ([("geom", JSValue.object [("sub", JSValue.number 1)]),
        ("other", JSValue.number 2)] : PropList), dotFree kv.1 = true) ∧
    lookupKey (flattenSource [] ""
        (JSValue.object [("geom", JSValue.object [("sub", JSValue.number 1)]),
          ("other", JSValue.number 2)]) "geom") ("geom" ++ "." ++ "sub") = none :=
  ⟨by decide,
   flattenSource_geometry_descendants_absent "geom" "sub"
     [("geom", JSValue.object [("sub", JSValue.number 1)]),
      ("other", JSValue.number 2)] (by decide)⟩

/-- C9: the flattener has no side effects on its inputs.  In the
store-passing embedding, every address that existed before the call — the
document record, its source tree, its computed-fields table, the geometry
value, and any other heap object — holds exactly the same object after
`flattenHit` returns: the only object ever written is the freshly allocated
accumulator. -/
theorem hFlattenHit_frame (st : Store) (g : String) (hit : HVal) (b : Nat)
    (h : b < st.length) :
    ((hFlattenHit st g hit).1).get? b = st.get? b := by
  have hb : b ≠ st.length := Nat.ne_of_lt h
  have happ : (st ++ [HObj.obj []]).get? b = st.get? b := by
    rw [List.get?_eq_getElem?, List.get?_eq_getElem?, List.getElem?_append, if_pos h]
  simp only [hFlattenHit]
  split
  · rw [hSetKey_frame _ _ _ _ b hb, hSetKey_frame _ _ _ _ b hb]
    split
    · rw [hFlattenFields_frame _ _ _ b hb, hFlattenSource_frame _ _ _ _ _ b hb, happ]
    · rw [hFlattenSource_frame _ _ _ _ _ b hb, happ]
  · exact happ

/-- Witness for C9: a one-object store holding the document's source
tree; it is untouched by the call. -/
theorem hFlattenHit_frame_witness :
    0 < ([HObj.obj [("x", HVal.number 1)]] : Store).length ∧
    ((hFlattenHit [HObj.obj [("x", HVal.number 1)]] "geom" (HVal.ref 0)).1).get? 0 =
      ([HObj.obj [("x", HVal.number 1)]] : Store).get? 0 :=
  ⟨by decide, hFlattenHit_frame [HObj.obj [("x", HVal.number 1)]] "geom" (HVal.ref 0) 0
    (by decide)⟩

end MvtUtil
